import Mathlib

/-!
A shallow embedding of the liquidation-monitor repository
(`liquidation_ba.py`, `liquidation_okx.py`, `liquidation_hub.py`).

Modelling conventions:
* wall-clock datetimes are seconds (`ℤ`); the `+8h` Beijing offset is
  `8 * 3600` seconds, and `datetime` comparison/subtraction is integer
  comparison/subtraction of seconds;
* numeric wire fields (`q`, `ap`, `sz`, `bkPx`, prices, amounts) are exact
  rationals; the decimal re-formatting the Binance adapter applies when
  printing CSV fields (`:.8f`, `:.2f`) is cosmetic (spec §9) and is not
  modelled, but the OKX `round(...)` that happens before the threshold
  test is modelled exactly (`pythonRound`);
* network effects are passed in as data: the OKX REST endpoint becomes a
  list of responses consumed by the retry loop, journal files become
  lists of rows, and each handler returns the row it would append.
-/

namespace LiqMon

/-- Direction string written by the adapters for a liquidated long position. -/
def dirLong : String := "多头爆仓"

/-- Direction string written by the adapters for a liquidated short position. -/
def dirShort : String := "空头爆仓"

/-- Python `round` on an exact value: nearest integer, halves to even. -/
def pythonRound (q : ℚ) : ℤ :=
  if q - (⌊q⌋ : ℚ) < 1/2 then ⌊q⌋
  else if (1 : ℚ)/2 < q - (⌊q⌋ : ℚ) then ⌊q⌋ + 1
  else if ⌊q⌋ % 2 = 0 then ⌊q⌋ else ⌊q⌋ + 1

/-- ASCII upper-casing of one character (the symbols handled are ASCII). -/
def upAscii (c : Char) : Char :=
  if 97 ≤ c.toNat ∧ c.toNat ≤ 122 then Char.ofNat (c.toNat - 32) else c

/-- Python `s.upper()` restricted to ASCII. -/
def pyUpper (s : String) : String := ⟨s.data.map upAscii⟩

/-- The adapters' `re.sub(r"(USDT|USDC)$", "", symbol, flags=re.I)`: strip one
case-insensitive `USDT`/`USDC` suffix. -/
def strip_usd_suffix (s : String) : String :=
  let u := s.data.map upAscii
  if 4 ≤ u.length ∧ (u.drop (u.length - 4) = "USDT".data ∨ u.drop (u.length - 4) = "USDC".data)
  then ⟨s.data.take (s.data.length - 4)⟩ else s

/-- `instId.split('-')[0]` (the base coin of an OKX instrument id). -/
def base_of (s : String) : String := ⟨s.data.takeWhile (fun c => decide (c ≠ '-'))⟩

/-- A journal CSV row, with the timestamp already parsed to seconds and the
numeric fields as exact rationals. -/
structure Row where
  ts : ℤ
  symbol : String
  exTag : String
  price : ℚ
  direction : String
  amount : ℚ
deriving DecidableEq

/-- `LiquidationEvent` of `liquidation_hub.py`. -/
structure Ev where
  ts : ℤ
  symbol : String
  exchange : String
  price : ℚ
  direction : String
  amount : ℚ
deriving DecidableEq

/-- The 10-USDT threshold shared by both adapters. -/
def threshold : ℚ := 10

/-- A parsed Binance force-order payload: `ev['E']` and the fields of `ev['o']`
(`q`/`ap` already resolved through the `o.get(...)` fallbacks). -/
structure BaEv where
  epochMs : ℤ
  s : String
  side : String
  q : ℚ
  ap : ℚ

/-- `handle_event` of `liquidation_ba.py`: the CSV row it appends, or `none`
when the event is below the threshold. -/
def handle_event (ev : BaEv) : Option Row :=
  let ts := ev.epochMs.ediv 1000 + 8 * 3600
  let base := strip_usd_suffix ev.s
  let amount := ev.q * ev.ap
  let direction := if ev.side = "BUY" then dirShort else dirLong
  if threshold ≤ amount then
    some ⟨ts, base, "BA", ev.ap, direction, amount⟩
  else none

/-- One response of the OKX `convert-contract-coin` REST endpoint:
HTTP status, body `code`, and `data[0].sz` when present. -/
structure RestResp where
  status : ℕ
  code : String
  dataSz : Option ℚ
deriving DecidableEq

/-- Python-dict lookup in an association list (first binding wins). -/
def lookupA : List (String × ℚ) → String → Option ℚ
  | [], _ => none
  | (k', v) :: rest, k => if k' = k then some v else lookupA rest k

/-- Python-dict assignment `d[k] = v`. -/
def setA : List (String × ℚ) → String → ℚ → List (String × ℚ)
  | [], k, v => [(k, v)]
  | (k', v') :: rest, k, v =>
    if k' = k then (k, v) :: rest else (k', v') :: setA rest k v

/-- `defaultdict(float)` update `d[k] += v`. -/
def addA : List (String × ℚ) → String × ℚ → List (String × ℚ)
  | [], x => [x]
  | (k', v') :: rest, x =>
    if k' = x.1 then (k', v' + x.2) :: rest else (k', v') :: addA rest x

/-- The retry loop inside `convert_contract_coin`: up to three REST responses
are consumed in order (a missing response models a timeout or network
error); an HTTP-200 response with `code == '0'` and a conversion result
yields the ratio `response.sz / sz`.  A zero `sz` would make the ratio
computation raise (`ZeroDivisionError`), which the `except` treats as a
failed attempt. -/
def try_attempts (sz : ℚ) : ℕ → List RestResp → Option ℚ
  | 0, _ => none
  | _ + 1, [] => none
  | n + 1, r :: rs =>
    if r.status = 200 then
      match r.dataSz with
      | some ds => if r.code = "0" ∧ sz ≠ 0 then some (ds / sz) else try_attempts sz n rs
      | none => try_attempts sz n rs
    else try_attempts sz n rs

/-- `convert_contract_coin` of `liquidation_okx.py`, as a function of the
ratio cache and of the REST responses the endpoint would give; returns
(converted size, updated cache, whether any REST call was made). -/
def convert_contract_coin (cache : List (String × ℚ)) (rest : List RestResp)
    (instId : String) (sz : ℚ) : Option ℚ × List (String × ℚ) × Bool :=
  match lookupA cache instId with
  | some ratio => (some (sz * ratio), cache, false)
  | none =>
    match try_attempts sz 3 rest with
    | some ratio => (some (sz * ratio), setA cache instId ratio, true)
    | none => (none, cache, true)

/-- One entry of an OKX liquidation push's `details` list; `bkPx = none`
models a missing, empty or unparseable bankruptcy price. -/
structure OkxDetail where
  tsMs : ℤ
  side : String
  posSide : String
  bkPx : Option ℚ
  sz : ℚ

/-- `handle_detail` of `liquidation_okx.py`: the CSV row it appends (or
`none`), the updated conversion cache, and whether a REST call was made. -/
def handle_detail (cache : List (String × ℚ)) (rest : List RestResp)
    (instId : String) (d : OkxDetail) : Option Row × List (String × ℚ) × Bool :=
  match d.bkPx with
  | none => (none, cache, false)
  | some px =>
    match convert_contract_coin cache rest instId d.sz with
    | (none, cache', called) => (none, cache', called)
    | (some conv, cache', called) =>
      let ts := d.tsMs.ediv 1000 + 8 * 3600
      let amount : ℤ := pythonRound (conv * px)
      let dir? : Option String :=
        if d.side = "sell" ∧ d.posSide = "long" then some dirLong
        else if d.side = "buy" ∧ d.posSide = "short" then some dirShort
        else none
      match dir? with
      | none => (none, cache', called)
      | some dir =>
        if threshold ≤ (amount : ℚ) then
          (some ⟨ts, base_of instId, "OKX", px, dir, (amount : ℚ)⟩, cache', called)
        else (none, cache', called)

/-- Hub retention (48 h) in seconds. -/
def RETENTION : ℤ := 48 * 3600

/-- `EventStore.append`: push at the tail, then evict from the head while
`head.ts < e.ts - retention`. -/
def store_append (ret : ℤ) (st : List Ev) (e : Ev) : List Ev :=
  (st ++ [e]).dropWhile (fun x => decide (x.ts < e.ts - ret))

/-- `EventStore.prune` at wall-clock `now`. -/
def prune (ret : ℤ) (st : List Ev) (now : ℤ) : List Ev :=
  st.dropWhile (fun x => decide (x.ts < now - ret))

/-- Exchange-tag normalization shared by `CsvTailer._ingest_row` and
`_initial_load_from_csv`. -/
def exchange_name (tag : String) : String :=
  if tag = "币安" ∨ tag = "BA" then "Binance" else "OKX"

/-- The event built from one well-formed journal row
(`CsvTailer._ingest_row`; `_initial_load_from_csv` is identical). -/
def ingest_row (r : Row) : Ev :=
  ⟨r.ts, strip_usd_suffix r.symbol, exchange_name r.exTag, r.price, r.direction, r.amount⟩

/-- `initial_bootstrap`: append every journal event with
`ts ≥ now - retention`, BA file first, then OKX file. -/
def initial_bootstrap (baRows okxRows : List Row) (now ret : ℤ) (st : List Ev) : List Ev :=
  let cutoff := now - ret
  let st1 := ((baRows.map ingest_row).filter (fun e => decide (cutoff ≤ e.ts))).foldl
    (store_append ret) st
  ((okxRows.map ingest_row).filter (fun e => decide (cutoff ≤ e.ts))).foldl
    (store_append ret) st1

/-- A fresh tailer's first poll: `_line_index = 0` and the inode differs from
`None`, so every row of the file is ingested. -/
def tailer_replay (rows : List Row) (ret : ℤ) (st : List Ev) : List Ev :=
  (rows.map ingest_row).foldl (store_append ret) st

/-- Hub boot (`__main__`): `initial_bootstrap` followed by the first poll of
the two fresh tailers (BA then OKX). -/
def hub_boot (baRows okxRows : List Row) (now ret : ℤ) : List Ev :=
  tailer_replay okxRows ret (tailer_replay baRows ret (initial_bootstrap baRows okxRows now ret []))

/-- The aggregation windows, in minutes. -/
def AGG_WINDOWS_MINUTES : List ℤ := [3, 15, 60, 240, 1440]

/-- The insertion step of a stable descending sort on summed amounts: the new
pair goes after every pair whose amount is `≥` its own. -/
def insert_desc (x : String × ℚ) : List (String × ℚ) → List (String × ℚ)
  | [] => [x]
  | y :: ys => if y.2 < x.2 then x :: y :: ys else y :: insert_desc x ys

/-- Stable descending sort by summed amount: computes the same list as
Python's stable `sorted(d.items(), key=..., reverse=True)` keyed on the
amount. -/
def sort_desc (l : List (String × ℚ)) : List (String × ℚ) :=
  l.foldl (fun acc x => insert_desc x acc) []

/-- One window's per-symbol sums in `EventStore.aggregates`
(`longs[e.symbol] += e.amount` over events with `ts ≥ window_start`;
`long = false` is the `else` branch feeding `shorts`). -/
def window_sums (events : List Ev) (wStart : ℤ) (long : Bool) : List (String × ℚ) :=
  events.foldl (fun acc e =>
    if decide (e.ts < wStart) then acc
    else if decide (e.direction = dirLong) = long then addA acc (e.symbol, e.amount)
    else acc) []

/-- One window's per-exchange total in `EventStore.aggregates`. -/
def exchange_total (events : List Ev) (wStart : ℤ) (long : Bool) (tags : List String) : ℚ :=
  events.foldl (fun acc e =>
    if decide (e.ts < wStart) then acc
    else if decide (e.direction = dirLong) = long ∧ e.exchange ∈ tags then acc + e.amount
    else acc) 0

/-- One window of `EventStore.aggregates`. -/
structure WindowAgg where
  top_long : List (String × ℚ)
  top_short : List (String × ℚ)
  binance_long : ℚ
  binance_short : ℚ
  okx_long : ℚ
  okx_short : ℚ
deriving DecidableEq

/-- One window's entry of `EventStore.aggregates` at wall-clock `now`. -/
def window_agg (events : List Ev) (now minutes : ℤ) : WindowAgg :=
  let wStart := now - minutes * 60
  { top_long := (sort_desc (window_sums events wStart true)).take 10
    top_short := (sort_desc (window_sums events wStart false)).take 10
    binance_long := exchange_total events wStart true ["Binance", "BA", "币安"]
    binance_short := exchange_total events wStart false ["Binance", "BA", "币安"]
    okx_long := exchange_total events wStart true ["OKX"]
    okx_short := exchange_total events wStart false ["OKX"] }

/-- `EventStore.aggregates` at wall-clock `now`. -/
def aggregates (events : List Ev) (now : ℤ) : List (ℤ × WindowAgg) :=
  AGG_WINDOWS_MINUTES.map (fun m => (m, window_agg events now m))

/-- `EventStore.iter_since`. -/
def iter_since (events : List Ev) (t : ℤ) : List Ev :=
  events.filter (fun e => decide (t < e.ts))

/-- The `/stream` query filters (`None` when the parameter is absent or
empty; an empty set is falsy in Python and also disables the filter). -/
structure SseFilter where
  symbols : Option (List String)
  exchanges : Option (List String)
  directions : Option (List String)

/-- The `continue` tests of the `/stream` generator's inner loop. -/
def sse_keep (f : SseFilter) (e : Ev) : Bool :=
  (match f.symbols with
   | none => true
   | some l => decide (l = [] ∨ pyUpper e.symbol ∈ l)) &&
  (match f.exchanges with
   | none => true
   | some l => decide (l = [] ∨ e.exchange ∈ l)) &&
  (match f.directions with
   | none => true
   | some l => decide (l = [] ∨ e.direction ∈ l))

/-- One 1-second tick of the `/stream` generator: the frame delivered and the
new `last_ts` cursor (timestamps are second-resolution, so re-parsing the
formatted `datetime` of the last item recovers `e.ts` exactly). -/
def sse_tick (events : List Ev) (f : SseFilter) (lastTs : ℤ) : List Ev × ℤ :=
  let items := (iter_since events lastTs).filter (sse_keep f)
  (items,
   match items.getLast? with
   | some e => e.ts
   | none => lastTs)

/-- Successive ticks of one `/stream` connection over successive store
snapshots. -/
def sse_run (f : SseFilter) : ℤ → List (List Ev) → List (List Ev)
  | _, [] => []
  | lastTs, st :: sts =>
    let t := sse_tick st f lastTs
    t.1 :: sse_run f t.2 sts

/-- Python `str.isdigit` (ASCII digits). -/
def pyIsDigit (s : String) : Bool :=
  decide (s.data ≠ []) && s.data.all (fun c => c.isDigit)

/-- Numeric value of a digit string. -/
def digitsVal (cs : List Char) : ℕ :=
  cs.foldl (fun acc c => acc * 10 + (c.toNat - 48)) 0

/-- Python whitespace (the characters `str.strip` removes). -/
def isPySpace (c : Char) : Bool :=
  decide (c = ' ' ∨ c = '\t' ∨ c = '\n' ∨ c = '\r' ∨ c = '\x0b' ∨ c = '\x0c')

/-- Python `str.strip()`. -/
def pyStrip (s : String) : String :=
  ⟨((s.data.dropWhile isPySpace).reverse.dropWhile isPySpace).reverse⟩

/-- Gregorian leap year. -/
def isLeap (y : ℕ) : Bool := (y % 4 == 0 && y % 100 != 0) || y % 400 == 0

/-- Days in a month. -/
def daysInMonth (y m : ℕ) : ℕ :=
  if m = 2 then (if isLeap y then 29 else 28)
  else if m ∈ [4, 6, 9, 11] then 30 else 31

/-- Day number of the civil date `y-m-d` relative to 1970-01-01. -/
def daysFromCivil (y m d : ℕ) : ℤ :=
  let yy := y - (if m ≤ 2 then 1 else 0)
  let era := yy / 400
  let yoe := yy % 400
  let mp := if 2 < m then m - 3 else m + 9
  let doy := (153 * mp + 2) / 5 + d - 1
  let doe := yoe * 365 + yoe / 4 - yoe / 100 + doy
  (era * 146097 + doe : ℤ) - 719468

/-- `datetime.strptime(value, "%Y-%m-%d %H:%M:%S")` as epoch seconds
(`none` on `ValueError`). -/
def tryParseDt (s : String) : Option ℤ :=
  match s.data with
  | [y1, y2, y3, y4, u1, mo1, mo2, u2, d1, d2, sp, h1, h2, c1, mi1, mi2, c2, s1, s2] =>
    if ([y1, y2, y3, y4, mo1, mo2, d1, d2, h1, h2, mi1, mi2, s1, s2].all Char.isDigit)
        && (u1 == '-') && (u2 == '-') && (sp == ' ') && (c1 == ':') && (c2 == ':') then
      let y := digitsVal [y1, y2, y3, y4]
      let mo := digitsVal [mo1, mo2]
      let d := digitsVal [d1, d2]
      let h := digitsVal [h1, h2]
      let mi := digitsVal [mi1, mi2]
      let sec := digitsVal [s1, s2]
      if 1 ≤ mo ∧ mo ≤ 12 ∧ 1 ≤ d ∧ d ≤ daysInMonth y mo ∧ h ≤ 23 ∧ mi ≤ 59 ∧ sec ≤ 59 then
        some (daysFromCivil y mo d * 86400 + h * 3600 + mi * 60 + sec)
      else none
    else none
  | _ => none

/-- `_parse_datetime_param` of `liquidation_hub.py`: digit strings are epoch
seconds (milliseconds when `> 10^12`) shifted by `+8h`; otherwise
`strptime`; any failure yields `None`, never an HTTP error. -/
def parse_datetime_param (v : Option String) : Option ℤ :=
  match v with
  | none => none
  | some raw =>
    if raw = "" then none
    else
      let value := pyStrip raw
      if pyIsDigit value then
        let iv := digitsVal value.data
        let iv' := if 1000000000000 < iv then iv / 1000 else iv
        some ((iv' : ℤ) + 8 * 3600)
      else tryParseDt value

/-- `EventStore.query`. -/
def query (events : List Ev) (since untl : Option ℤ)
    (symbols exchanges directions : Option (List String)) (limit : Option ℕ) : List Ev :=
  let items := events.filter (fun e =>
    (match since with | none => true | some t => decide (¬ e.ts < t)) &&
    (match untl with | none => true | some t => decide (¬ t < e.ts)) &&
    (match symbols with | none => true | some l => decide (l = [] ∨ e.symbol ∈ l)) &&
    (match exchanges with | none => true | some l => decide (l = [] ∨ e.exchange ∈ l)) &&
    (match directions with | none => true | some l => decide (l = [] ∨ e.direction ∈ l)))
  match limit with
  | none => items
  | some n => if n = 0 then items else items.drop (items.length - n)

/-- Splitting the chars of a comma-separated parameter (`s.split(",")`). -/
def split_on_comma (cs : List Char) : List (List Char) :=
  cs.foldr (fun c acc =>
    match acc with
    | [] => [[c]]
    | g :: gs => if c = ',' then [] :: g :: gs else (c :: g) :: gs) [[]]

/-- `[s.strip() for s in v.split(",")] if v else None`. -/
def split_csv (v : Option String) : Option (List String) :=
  match v with
  | none => none
  | some s =>
    if s = "" then none
    else some ((split_on_comma s.data).map (fun g => pyStrip ⟨g⟩))

/-- `int(limit) if (limit and limit.isdigit()) else None`. -/
def parse_limit (v : Option String) : Option ℕ :=
  match v with
  | none => none
  | some l => if l ≠ "" ∧ pyIsDigit l = true then some (digitsVal l.data) else none

/-- `api_history` of `liquidation_hub.py`: HTTP status and response body.
The handler has no error path — it always answers 200 with a query
result; unparseable parameters merely parse to `None`. -/
def api_history (st : List Ev) (since untl symbols exchanges directions limit : Option String) :
    ℕ × List Ev :=
  (200,
   query st (parse_datetime_param since) (parse_datetime_param untl)
     (split_csv symbols) (split_csv exchanges) (split_csv directions) (parse_limit limit))

/-- Lexicographic (code-point) comparison of character lists, Python's `<`
on the underlying strings. -/
def charListLt : List Char → List Char → Bool
  | _, [] => false
  | [], _ :: _ => true
  | a :: as, b :: bs => if a < b then true else if b < a then false else charListLt as bs

/-- Python string `<`. -/
def strLt (a b : String) : Bool := charListLt a.data b.data

/-- First-occurrence deduplication, extending an accumulator. -/
def dedupFirstFrom (a : List String) (l : List String) : List String :=
  l.foldl (fun acc s => if s ∈ acc then acc else acc ++ [s]) a

/-- The distinct elements of `l` in first-occurrence order. -/
def dedupFirst (l : List String) : List String := dedupFirstFrom [] l

/-- The events feeding one side (`long`/`short`) of one window of
`EventStore.aggregates`. -/
def window_dir_events (events : List Ev) (wStart : ℤ) (long : Bool) : List Ev :=
  events.filter (fun e => decide (¬ e.ts < wStart ∧ decide (e.direction = dirLong) = long))

/-- Those events' symbols, in store order. -/
def dir_symbols (events : List Ev) (wStart : ℤ) (long : Bool) : List String :=
  (window_dir_events events wStart long).map (fun e => e.symbol)

/-- The summed amount of one symbol over one window side. -/
def dir_sum (events : List Ev) (wStart : ℤ) (long : Bool) (s : String) : ℚ :=
  ((window_dir_events events wStart long).filter (fun e => decide (e.symbol = s))).foldl
    (fun a e => a + e.amount) 0

/-- The `(symbol, amount)` rows of a list of events. -/
def pairRows (events : List Ev) : List (String × ℚ) :=
  events.map (fun e => (e.symbol, e.amount))

/-- The per-key sums of a row list, keys in first-appearance order
(the semantics of the `defaultdict` loop). -/
def groupFold (rows : List (String × ℚ)) : List (String × ℚ) := rows.foldl addA []

/-- The summed second components of the rows with first component `s`. -/
def sumRows (rows : List (String × ℚ)) (s : String) : ℚ :=
  (rows.filter (fun p => decide (p.1 = s))).foldl (fun a p => a + p.2) 0

/-- C1: the journal round-trip property fails on the code.  `initial_bootstrap`
loads every retained journal row into the store, and then the fresh tailer
(whose `_line_index` starts at 0) replays the same file from the top, so a
journal holding one retained row boots into a store holding that event twice
— not `{e ∈ E | e.ts ≥ now − retention}` in journal order.  Conjuncts: the
boot result, the spec-side filtered journal, and their disagreement. -/
theorem hub_boot_double_ingest :
    hub_boot [⟨1000000, "BTC", "BA", 100, dirLong, 1000⟩] [] 1000000 RETENTION =
      [ingest_row ⟨1000000, "BTC", "BA", 100, dirLong, 1000⟩,
       ingest_row ⟨1000000, "BTC", "BA", 100, dirLong, 1000⟩] ∧
    (([(⟨1000000, "BTC", "BA", 100, dirLong, 1000⟩ : Row)].map ingest_row).filter
        (fun e => decide (1000000 - RETENTION ≤ e.ts))) =
      [ingest_row ⟨1000000, "BTC", "BA", 100, dirLong, 1000⟩] ∧
    ([ingest_row ⟨1000000, "BTC", "BA", 100, dirLong, 1000⟩,
      ingest_row ⟨1000000, "BTC", "BA", 100, dirLong, 1000⟩] : List Ev) ≠
      [ingest_row ⟨1000000, "BTC", "BA", 100, dirLong, 1000⟩] :=
  ⟨rfl, rfl, by simp⟩

/-- C10: the tailer (and the bootstrap loader, which applies the identical
transformation) maps an exchange tag of `BA` or `币安` to `Binance` and every
other tag to `OKX`, and no well-formed row is dropped for its tag (the
ingestion is total: it maps each row to exactly one event). -/
theorem ingest_exchange_mapping :
    (∀ r : Row, r.exTag = "BA" ∨ r.exTag = "币安" → (ingest_row r).exchange = "Binance") ∧
    (∀ r : Row, ¬(r.exTag = "BA" ∨ r.exTag = "币安") → (ingest_row r).exchange = "OKX") ∧
    (∀ rows : List Row, (rows.map ingest_row).length = rows.length) := by
  refine ⟨fun r h => ?_, fun r h => ?_, fun rows => by simp⟩
  · show exchange_name r.exTag = "Binance"
    rcases h with h | h
    · rw [exchange_name, if_pos (Or.inr h)]
    · rw [exchange_name, if_pos (Or.inl h)]
  · show exchange_name r.exTag = "OKX"
    rw [exchange_name, if_neg]
    intro hc
    exact h (hc.elim Or.inr Or.inl)

/-- C10 witness: the mapping evaluated at a `BA` row and at a row with an
unrecognized tag. -/
theorem ingest_exchange_mapping_witness :
    (ingest_row ⟨0, "BTCUSDT", "BA", 1, dirLong, 100⟩).exchange = "Binance" ∧
    (ingest_row ⟨0, "BTCUSDT", "XX", 1, dirLong, 100⟩).exchange = "OKX" :=
  ⟨ingest_exchange_mapping.1 _ (Or.inl rfl),
   ingest_exchange_mapping.2.1 _ (by decide)⟩

/-- C5: the retention claim fails for an arbitrary store state.  `prune` only
pops from the head of the deque, so when an event with an old timestamp sits
behind a newer head (reachable: the two tailers interleave, and a replayed
journal appends old rows after the other exchange's new ones), it survives a
`prune` even though it is beyond the retention horizon. -/
theorem prune_retention_cex :
    ∃ e ∈ prune RETENTION
        (store_append RETENTION
          (store_append RETENTION [] ⟨1000000, "BTC", "Binance", 1, dirLong, 100⟩)
          ⟨0, "ETH", "OKX", 1, dirLong, 100⟩) 1000000,
      e.ts < 1000000 - RETENTION := by
  refine ⟨⟨0, "ETH", "OKX", 1, dirLong, 100⟩, ?_, by decide⟩
  have h : prune RETENTION
      (store_append RETENTION
        (store_append RETENTION [] ⟨1000000, "BTC", "Binance", 1, dirLong, 100⟩)
        ⟨0, "ETH", "OKX", 1, dirLong, 100⟩) 1000000 =
      [⟨1000000, "BTC", "Binance", 1, dirLong, 100⟩, ⟨0, "ETH", "OKX", 1, dirLong, 100⟩] := rfl
  rw [h]
  simp

/-- C5 amended: for a store whose events are in non-decreasing timestamp
order — which is what a single journal's tailer produces — every event that
survives `prune()` at time `now` satisfies `e.ts ≥ now − retention`. -/
theorem prune_retention_sorted (ret now : ℤ) (st : List Ev)
    (hs : st.Pairwise (fun a b => a.ts ≤ b.ts)) :
    ∀ e ∈ prune ret st now, now - ret ≤ e.ts := by
  induction st with
  | nil => simp [prune]
  | cons x t ih =>
    rw [prune, List.dropWhile_cons]
    by_cases hx : x.ts < now - ret
    · simpa [hx] using ih hs.of_cons
    · intro e he
      rw [if_neg (by simp [hx])] at he
      rcases List.mem_cons.1 he with rfl | he'
      · exact le_of_not_lt hx
      · exact le_trans (le_of_not_lt hx) (List.rel_of_pairwise_cons hs he')

/-- C5 witness: the amended retention invariant on a concrete sorted store. -/
theorem prune_retention_sorted_witness :
    ([(⟨900000, "BTC", "Binance", 1, dirLong, 100⟩ : Ev),
      ⟨1000000, "ETH", "OKX", 1, dirLong, 100⟩] : List Ev).Pairwise (fun a b => a.ts ≤ b.ts) ∧
    ∀ e ∈ prune RETENTION
        [(⟨900000, "BTC", "Binance", 1, dirLong, 100⟩ : Ev),
         ⟨1000000, "ETH", "OKX", 1, dirLong, 100⟩] 1000000,
      1000000 - RETENTION ≤ e.ts :=
  ⟨by simp, prune_retention_sorted RETENTION 1000000 _ (by simp)⟩

/-- C7: the journaled OKX amount is not the exact product
`(sz × ratio) × bkPx`: `handle_detail` rounds it to the nearest integer
(`round(...)`) before the threshold test and the CSV write.  With the cached
ratio 1/100, `sz = 10` and `bkPx = 2000.5`, the exact product is 200.05 but
the journaled amount is 200. -/
theorem okx_amount_rounding_cex :
    (handle_detail [("ETH-USDT-SWAP", 1/100)] [] "ETH-USDT-SWAP"
        ⟨1700000000000, "sell", "long", some (4001/2), 10⟩).1 =
      some ⟨1700000000 + 8 * 3600, "ETH", "OKX", 4001/2, dirLong, 200⟩ ∧
    (10 * ((1 : ℚ)/100)) * ((4001 : ℚ)/2) ≠ 200 := by
  constructor
  · with_unfolding_all rfl
  · norm_num

/-- C7 amended: every journaled OKX row carries `price = bkPx` and
`amount = round((sz × ratio) × bkPx)` — the nearest integer (halves to even)
of the product of the converted size and the bankruptcy price. -/
theorem okx_amount_rounded (cache : List (String × ℚ)) (rest : List RestResp)
    (instId : String) (d : OkxDetail) (px conv : ℚ) (r : Row)
    (hpx : d.bkPx = some px)
    (hconv : (convert_contract_coin cache rest instId d.sz).1 = some conv)
    (hrow : (handle_detail cache rest instId d).1 = some r) :
    r.amount = (pythonRound (conv * px) : ℚ) ∧ r.price = px := by
  unfold handle_detail at hrow
  rw [hpx] at hrow
  rcases hcc : convert_contract_coin cache rest instId d.sz with ⟨res, cache2, called⟩
  rw [hcc] at hrow
  rw [hcc] at hconv
  simp only at hconv
  subst hconv
  simp only at hrow
  split at hrow
  · exact absurd hrow (by simp)
  · split at hrow
    · simp only [Option.some.injEq] at hrow
      subst hrow
      exact ⟨rfl, rfl⟩
    · exact absurd hrow (by simp)

/-- C7 witness: the amended amount formula at a concrete detail (cached
ratio 2, `sz = 5`, `bkPx = 3`). -/
theorem okx_amount_rounded_witness :
    (⟨0, "sell", "long", some 3, 5⟩ : OkxDetail).bkPx = some 3 ∧
    (convert_contract_coin [("X", 2)] [] "X" 5).1 = some (5 * 2) ∧
    (handle_detail [("X", 2)] [] "X" ⟨0, "sell", "long", some 3, 5⟩).1 =
      some ⟨28800, "X", "OKX", 3, dirLong, 30⟩ ∧
    ((⟨28800, "X", "OKX", 3, dirLong, 30⟩ : Row).amount = (pythonRound ((5 * 2) * 3) : ℚ) ∧
     (⟨28800, "X", "OKX", 3, dirLong, 30⟩ : Row).price = 3) := by
  refine ⟨rfl, rfl, by with_unfolding_all rfl, ?_⟩
  exact okx_amount_rounded [("X", 2)] [] "X" ⟨0, "sell", "long", some 3, 5⟩ 3 (5 * 2)
    ⟨28800, "X", "OKX", 3, dirLong, 30⟩ rfl rfl (by with_unfolding_all rfl)

/-- C9: no read endpoint ever answers 400.  `api_history` with an
unparseable `since` and an unparseable `limit` still answers HTTP 200, and —
because the bad `since` parses to `None` — returns even events that any
intended `since` bound would have excluded. -/
theorem api_history_no_400_cex :
    api_history [⟨0, "BTC", "Binance", 1, dirLong, 100⟩]
        (some "garbage") none none none none (some "abc") =
      (200, [⟨0, "BTC", "Binance", 1, dirLong, 100⟩]) ∧ (200 : ℕ) ≠ 400 :=
  ⟨rfl, by decide⟩

/-- C9 amended: query parameters that fail to parse are treated as absent
(`None`), and the handler answers 200 with the corresponding best-effort
query result; there is no 400 path. -/
theorem api_history_unparseable_amended (st : List Ev)
    (since untl symbols exchanges directions limit : Option String)
    (h1 : parse_datetime_param since = none)
    (h2 : parse_datetime_param untl = none)
    (h3 : parse_limit limit = none) :
    api_history st since untl symbols exchanges directions limit =
      (200, query st none none (split_csv symbols) (split_csv exchanges)
        (split_csv directions) none) := by
  unfold api_history
  rw [h1, h2, h3]

/-- A helper: `pythonRound` never exceeds the floor by more than one. -/
theorem pythonRound_le_floor_add_one (q : ℚ) : pythonRound q ≤ ⌊q⌋ + 1 := by
  unfold pythonRound
  split_ifs <;> omega

/-- A helper: an amount that rounds to at least 10 was positive. -/
theorem pos_of_ten_le_pythonRound {x : ℚ} (h : (10 : ℤ) ≤ pythonRound x) : 0 < x := by
  have h1 := pythonRound_le_floor_add_one x
  have h2 : (9 : ℤ) ≤ ⌊x⌋ := by omega
  have h3 : ((9 : ℤ) : ℚ) ≤ x := Int.le_floor.mp h2
  push_cast at h3
  linarith

/-- A helper: a successful cache lookup returns a stored binding. -/
theorem lookupA_mem : ∀ {cache : List (String × ℚ)} {k : String} {v : ℚ},
    lookupA cache k = some v → (k, v) ∈ cache := by
  intro cache
  induction cache with
  | nil => intro k v h; simp [lookupA] at h
  | cons p rest ih =>
    intro k v h
    simp only [lookupA] at h
    by_cases hp : p.1 = k
    · rw [if_pos hp] at h
      simp only [Option.some.injEq] at h
      have hkv : (k, v) = p := by rw [← hp, ← h]
      rw [hkv]
      exact List.mem_cons_self _ _
    · rw [if_neg hp] at h
      exact List.mem_cons_of_mem _ (ih h)

/-- A helper: looking up a key just stored finds the stored value. -/
theorem lookupA_setA_self : ∀ (cache : List (String × ℚ)) (k : String) (v : ℚ),
    lookupA (setA cache k v) k = some v := by
  intro cache k v
  induction cache with
  | nil => simp [setA, lookupA]
  | cons p rest ih =>
    by_cases h : p.1 = k
    · simp [setA, h, lookupA]
    · simp only [setA]
      rw [if_neg h]
      simp only [lookupA]
      rw [if_neg h]
      exact ih

/-- A helper: a ratio learned by the retry loop is `response.sz / sz` for
one of the offered responses. -/
theorem try_attempts_spec : ∀ (n : ℕ) (rest : List RestResp) (sz ratio : ℚ),
    try_attempts sz n rest = some ratio →
    ∃ ds : ℚ, ratio = ds / sz ∧ ∃ r ∈ rest, r.dataSz = some ds := by
  intro n
  induction n with
  | zero => intro rest sz ratio h; simp [try_attempts] at h
  | succ m ih =>
    intro rest sz ratio h
    cases rest with
    | nil => simp [try_attempts] at h
    | cons r rs =>
      rw [try_attempts] at h
      by_cases hst : r.status = 200
      · rw [if_pos hst] at h
        cases hds : r.dataSz with
        | none =>
          rw [hds] at h
          dsimp only at h
          obtain ⟨ds, hr, rr, hm, hd⟩ := ih rs sz ratio h
          exact ⟨ds, hr, rr, List.mem_cons_of_mem _ hm, hd⟩
        | some ds =>
          rw [hds] at h
          dsimp only at h
          by_cases hc : r.code = "0" ∧ sz ≠ 0
          · rw [if_pos hc] at h
            simp only [Option.some.injEq] at h
            exact ⟨ds, h.symm, r, List.mem_cons_self _ _, hds⟩
          · rw [if_neg hc] at h
            obtain ⟨ds', hr, rr, hm, hd⟩ := ih rs sz ratio h
            exact ⟨ds', hr, rr, List.mem_cons_of_mem _ hm, hd⟩
      · rw [if_neg hst] at h
        obtain ⟨ds, hr, rr, hm, hd⟩ := ih rs sz ratio h
        exact ⟨ds, hr, rr, List.mem_cons_of_mem _ hm, hd⟩

/-- A helper: with non-negative cache entries, REST sizes and `sz`, every
converted size is non-negative. -/
theorem convert_nonneg {cache : List (String × ℚ)} {rest : List RestResp}
    {instId : String} {sz conv : ℚ}
    (hcache : ∀ p ∈ cache, 0 ≤ p.2)
    (hrest : ∀ r ∈ rest, ∀ ds, r.dataSz = some ds → 0 ≤ ds)
    (hsz : 0 ≤ sz)
    (h : (convert_contract_coin cache rest instId sz).1 = some conv) : 0 ≤ conv := by
  unfold convert_contract_coin at h
  cases hl : lookupA cache instId with
  | some ratio =>
    rw [hl] at h
    simp only [Option.some.injEq] at h
    subst h
    exact mul_nonneg hsz (hcache _ (lookupA_mem hl))
  | none =>
    rw [hl] at h
    cases ht : try_attempts sz 3 rest with
    | none => rw [ht] at h; simp at h
    | some ratio =>
      rw [ht] at h
      simp only [Option.some.injEq] at h
      subst h
      obtain ⟨ds, hr, r, hm, hd⟩ := try_attempts_spec 3 rest sz ratio ht
      subst hr
      exact mul_nonneg hsz (div_nonneg (hrest r hm ds hd) hsz)

/-- C9 witness: the amended behaviour at concrete unparseable parameters. -/
theorem api_history_unparseable_amended_witness :
    parse_datetime_param (some "garbage") = none ∧
    parse_datetime_param (some "2023-13-99") = none ∧
    parse_limit (some "abc") = none ∧
    api_history [] (some "garbage") (some "2023-13-99") none none none (some "abc") =
      (200, query [] none none none none none none) :=
  ⟨rfl, rfl, rfl,
   api_history_unparseable_amended [] (some "garbage") (some "2023-13-99")
     none none none (some "abc") rfl rfl rfl⟩

/-- C2: the OKX conversion cache.  A cache hit returns `sz * cache[instId]`
with no REST call; a cache miss with a successful first response (HTTP 200,
`code = '0'`) learns and stores `ratio = response.sz / sz` permanently, so a
later lookup finds it.  Concretely, scenario S3: learning ratio `0.01` from
`sz = 10`, `response.sz = 0.1` for `ETH-USDT-SWAP`, the first detail
(`bkPx = 2000`) journals a LONG row of amount 200 with one REST call, and a
second push (`sz = 50`, `bkPx = 2100`) journals amount 1050 with no REST
call available or made. -/
theorem convert_contract_coin_cache :
    (∀ (cache : List (String × ℚ)) (rest : List RestResp) (instId : String) (sz ratio : ℚ),
        lookupA cache instId = some ratio →
        convert_contract_coin cache rest instId sz = (some (sz * ratio), cache, false)) ∧
    (∀ (cache : List (String × ℚ)) (rest : List RestResp) (instId : String) (sz ds : ℚ)
        (resp : RestResp),
        lookupA cache instId = none → resp.status = 200 → resp.code = "0" →
        resp.dataSz = some ds → sz ≠ 0 →
        convert_contract_coin cache (resp :: rest) instId sz =
          (some (sz * (ds / sz)), setA cache instId (ds / sz), true) ∧
        lookupA (setA cache instId (ds / sz)) instId = some (ds / sz)) ∧
    ((handle_detail [] [⟨200, "0", some (1/10)⟩] "ETH-USDT-SWAP"
        ⟨1700000000000, "sell", "long", some 2000, 10⟩).1 =
      some ⟨1700000000 + 8 * 3600, "ETH", "OKX", 2000, dirLong, 200⟩ ∧
     (handle_detail [] [⟨200, "0", some (1/10)⟩] "ETH-USDT-SWAP"
        ⟨1700000000000, "sell", "long", some 2000, 10⟩).2 =
       ([("ETH-USDT-SWAP", 1/100)], true) ∧
     (handle_detail [("ETH-USDT-SWAP", 1/100)] [] "ETH-USDT-SWAP"
        ⟨1700000060000, "sell", "long", some 2100, 50⟩).1 =
      some ⟨1700000060 + 8 * 3600, "ETH", "OKX", 2100, dirLong, 1050⟩ ∧
     (handle_detail [("ETH-USDT-SWAP", 1/100)] [] "ETH-USDT-SWAP"
        ⟨1700000060000, "sell", "long", some 2100, 50⟩).2 =
       ([("ETH-USDT-SWAP", 1/100)], false)) := by
  refine ⟨?_, ?_, ?_, ?_, ?_, ?_⟩
  · intro cache rest instId sz ratio h
    unfold convert_contract_coin
    rw [h]
  · intro cache rest instId sz ds resp h hst hcode hds hsz
    have hta : try_attempts sz 3 (resp :: rest) = some (ds / sz) := by
      rw [try_attempts, if_pos hst, hds]
      dsimp only
      rw [if_pos ⟨hcode, hsz⟩]
    constructor
    · unfold convert_contract_coin
      rw [h, hta]
    · exact lookupA_setA_self cache instId (ds / sz)
  · with_unfolding_all rfl
  · with_unfolding_all rfl
  · with_unfolding_all rfl
  · with_unfolding_all rfl

/-- C2 witness: the cache-hit branch at `sz = 3` against a cached ratio 2,
and the learn-then-store branch at `sz = 1` with `response.sz = 2`. -/
theorem convert_contract_coin_cache_witness :
    lookupA [("X", 2)] "X" = some 2 ∧
    convert_contract_coin [("X", 2)] [] "X" 3 = (some (3 * 2), [("X", 2)], false) ∧
    lookupA [] "Y" = none ∧ (1 : ℚ) ≠ 0 ∧
    (convert_contract_coin [] [⟨200, "0", some 2⟩] "Y" 1 =
        (some (1 * (2 / 1)), setA [] "Y" (2 / 1), true) ∧
      lookupA (setA [] "Y" (2 / 1)) "Y" = some (2 / 1)) :=
  ⟨rfl, convert_contract_coin_cache.1 [("X", 2)] [] "X" 3 2 rfl, rfl, one_ne_zero,
   convert_contract_coin_cache.2.1 [] [] "Y" 1 2 ⟨200, "0", some 2⟩ rfl rfl rfl rfl one_ne_zero⟩

/-- C6: OKX direction policy.  `side=sell & posSide=long` rows carry
`多头爆仓`, `side=buy & posSide=short` rows carry `空头爆仓`, and any other
combination journals nothing (and hence produces no store event). -/
theorem okx_direction_policy :
    (∀ (cache : List (String × ℚ)) (rest : List RestResp) (instId : String) (d : OkxDetail),
        ¬((d.side = "sell" ∧ d.posSide = "long") ∨ (d.side = "buy" ∧ d.posSide = "short")) →
        (handle_detail cache rest instId d).1 = none) ∧
    (∀ (cache : List (String × ℚ)) (rest : List RestResp) (instId : String) (d : OkxDetail)
        (r : Row), d.side = "sell" → d.posSide = "long" →
        (handle_detail cache rest instId d).1 = some r → r.direction = dirLong) ∧
    (∀ (cache : List (String × ℚ)) (rest : List RestResp) (instId : String) (d : OkxDetail)
        (r : Row), d.side = "buy" → d.posSide = "short" →
        (handle_detail cache rest instId d).1 = some r → r.direction = dirShort) := by
  refine ⟨?_, ?_, ?_⟩
  · intro cache rest instId d hnot
    unfold handle_detail
    cases hb : d.bkPx with
    | none => rfl
    | some px =>
      rcases hcc : convert_contract_coin cache rest instId d.sz with ⟨res, c2, called⟩
      cases res with
      | none => rfl
      | some conv =>
        dsimp only
        rw [if_neg (fun hA => hnot (Or.inl hA)), if_neg (fun hB => hnot (Or.inr hB))]
  · intro cache rest instId d r hside hpos hrow
    unfold handle_detail at hrow
    cases hb : d.bkPx with
    | none => rw [hb] at hrow; exact absurd hrow (by simp)
    | some px =>
      rw [hb] at hrow
      rcases hcc : convert_contract_coin cache rest instId d.sz with ⟨res, c2, called⟩
      rw [hcc] at hrow
      cases res with
      | none => exact absurd hrow (by simp)
      | some conv =>
        dsimp only at hrow
        rw [if_pos ⟨hside, hpos⟩] at hrow
        dsimp only at hrow
        split at hrow
        · simp only [Option.some.injEq] at hrow
          subst hrow
          rfl
        · exact absurd hrow (by simp)
  · intro cache rest instId d r hside hpos hrow
    unfold handle_detail at hrow
    cases hb : d.bkPx with
    | none => rw [hb] at hrow; exact absurd hrow (by simp)
    | some px =>
      rw [hb] at hrow
      rcases hcc : convert_contract_coin cache rest instId d.sz with ⟨res, c2, called⟩
      rw [hcc] at hrow
      cases res with
      | none => exact absurd hrow (by simp)
      | some conv =>
        dsimp only at hrow
        rw [if_neg (by rintro ⟨h1, h2⟩; rw [hside] at h1; exact absurd h1 (by decide)),
          if_pos ⟨hside, hpos⟩] at hrow
        dsimp only at hrow
        split at hrow
        · simp only [Option.some.injEq] at hrow
          subst hrow
          rfl
        · exact absurd hrow (by simp)

/-- C6 witness: scenario S4 (`side=buy, posSide=long` is dropped), plus the
two valid combinations at a concrete detail with cached ratio 2. -/
theorem okx_direction_policy_witness :
    ¬(((("buy" : String) = "sell") ∧ (("long" : String) = "long")) ∨
      ((("buy" : String) = "buy") ∧ (("long" : String) = "short"))) ∧
    (handle_detail [("X", 2)] [] "X" ⟨0, "buy", "long", some 3, 5⟩).1 = none ∧
    (handle_detail [("X", 2)] [] "X" ⟨0, "sell", "long", some 3, 5⟩).1 =
      some ⟨28800, "X", "OKX", 3, dirLong, 30⟩ ∧
    (⟨28800, "X", "OKX", 3, dirLong, 30⟩ : Row).direction = dirLong ∧
    (handle_detail [("X", 2)] [] "X" ⟨0, "buy", "short", some 3, 5⟩).1 =
      some ⟨28800, "X", "OKX", 3, dirShort, 30⟩ ∧
    (⟨28800, "X", "OKX", 3, dirShort, 30⟩ : Row).direction = dirShort := by
  refine ⟨by decide, ?_, by with_unfolding_all rfl, ?_, by with_unfolding_all rfl, ?_⟩
  · exact okx_direction_policy.1 [("X", 2)] [] "X" ⟨0, "buy", "long", some 3, 5⟩ (by decide)
  · exact okx_direction_policy.2.1 [("X", 2)] [] "X" ⟨0, "sell", "long", some 3, 5⟩
      ⟨28800, "X", "OKX", 3, dirLong, 30⟩ rfl rfl (by with_unfolding_all rfl)
  · exact okx_direction_policy.2.2 [("X", 2)] [] "X" ⟨0, "buy", "short", some 3, 5⟩
      ⟨28800, "X", "OKX", 3, dirShort, 30⟩ rfl rfl (by with_unfolding_all rfl)

/-- C3: the claimed "row appended ⟺ amount ≥ 10" fails as an iff for the OKX
adapter: `handle_detail` computes the amount before checking the direction,
so a detail with `side=buy, posSide=long` and a computed amount of 30 ≥ 10
journals nothing. -/
theorem adapter_threshold_iff_cex :
    (convert_contract_coin [("X", 2)] [] "X" 5).1 = some ((5 : ℚ) * 2) ∧
    threshold ≤ ((pythonRound (((5 : ℚ) * 2) * 3) : ℤ) : ℚ) ∧
    (handle_detail [("X", 2)] [] "X" ⟨0, "buy", "long", some 3, 5⟩).1 = none :=
  ⟨rfl, by with_unfolding_all decide, rfl⟩

/-- C3 amended: with non-negative wire quantities and prices (as the feeds
provide), a Binance message journals a row iff its amount `q*ap` reaches the
10-USDT threshold, and an OKX detail whose amount was computed journals a
row iff the rounded amount reaches the threshold AND the `(side, posSide)`
combination is recognized; every journaled row has a strictly positive
price. -/
theorem adapter_threshold_price_amended :
    (∀ ev : BaEv, (handle_event ev).isSome ↔ threshold ≤ ev.q * ev.ap) ∧
    (∀ (ev : BaEv) (r : Row), 0 ≤ ev.q → 0 ≤ ev.ap →
        handle_event ev = some r → 0 < r.price) ∧
    (∀ (cache : List (String × ℚ)) (rest : List RestResp) (instId : String) (d : OkxDetail)
        (px conv : ℚ),
        d.bkPx = some px → (convert_contract_coin cache rest instId d.sz).1 = some conv →
        ((handle_detail cache rest instId d).1.isSome ↔
          threshold ≤ ((pythonRound (conv * px) : ℤ) : ℚ) ∧
          ((d.side = "sell" ∧ d.posSide = "long") ∨ (d.side = "buy" ∧ d.posSide = "short")))) ∧
    (∀ (cache : List (String × ℚ)) (rest : List RestResp) (instId : String) (d : OkxDetail)
        (r : Row),
        (∀ p ∈ cache, 0 ≤ p.2) → (∀ resp ∈ rest, ∀ ds, resp.dataSz = some ds → 0 ≤ ds) →
        0 ≤ d.sz → (handle_detail cache rest instId d).1 = some r → 0 < r.price) := by
  refine ⟨?_, ?_, ?_, ?_⟩
  · intro ev
    unfold handle_event
    by_cases h : threshold ≤ ev.q * ev.ap
    · simp [h]
    · simp [h]
  · intro ev r hq hap hrow
    by_cases h : threshold ≤ ev.q * ev.ap
    · have heq : handle_event ev =
          some ⟨ev.epochMs.ediv 1000 + 8 * 3600, strip_usd_suffix ev.s, "BA", ev.ap,
            if ev.side = "BUY" then dirShort else dirLong, ev.q * ev.ap⟩ := by
        unfold handle_event
        rw [if_pos h]
      rw [heq] at hrow
      simp only [Option.some.injEq] at hrow
      subst hrow
      have hpos : 0 < ev.q * ev.ap := lt_of_lt_of_le (by norm_num [threshold]) h
      rcases lt_or_eq_of_le hap with hlt | hz
      · exact hlt
      · exfalso
        rw [← hz, mul_zero] at hpos
        exact lt_irrefl 0 hpos
    · have heq : handle_event ev = none := by
        unfold handle_event
        rw [if_neg h]
      rw [heq] at hrow
      exact absurd hrow (by simp)
  · intro cache rest instId d px conv hpx hconv
    unfold handle_detail
    rw [hpx]
    rcases hcc : convert_contract_coin cache rest instId d.sz with ⟨res, c2, called⟩
    rw [hcc] at hconv
    simp only at hconv
    subst hconv
    dsimp only
    by_cases hA : d.side = "sell" ∧ d.posSide = "long"
    · rw [if_pos hA]
      dsimp only
      by_cases hth : threshold ≤ ((pythonRound (conv * px) : ℤ) : ℚ)
      · rw [if_pos hth]
        simp [hth, hA]
      · rw [if_neg hth]
        simp [hth]
    · rw [if_neg hA]
      by_cases hB : d.side = "buy" ∧ d.posSide = "short"
      · rw [if_pos hB]
        dsimp only
        by_cases hth : threshold ≤ ((pythonRound (conv * px) : ℤ) : ℚ)
        · rw [if_pos hth]
          simp [hth, hB]
        · rw [if_neg hth]
          simp [hth]
      · simp [hA, hB]
  · intro cache rest instId d r hcache hrest hsz hrow
    unfold handle_detail at hrow
    cases hpx : d.bkPx with
    | none => rw [hpx] at hrow; exact absurd hrow (by simp)
    | some px =>
      rw [hpx] at hrow
      rcases hcc : convert_contract_coin cache rest instId d.sz with ⟨res, c2, called⟩
      rw [hcc] at hrow
      cases res with
      | none => exact absurd hrow (by simp)
      | some conv =>
        have hconv0 : 0 ≤ conv := convert_nonneg hcache hrest hsz (by rw [hcc])
        dsimp only at hrow
        split at hrow
        · exact absurd hrow (by simp)
        · split at hrow
          · rename_i hth
            simp only [Option.some.injEq] at hrow
            subst hrow
            rw [show threshold = ((10 : ℤ) : ℚ) from by norm_num [threshold]] at hth
            have hthz : (10 : ℤ) ≤ pythonRound (conv * px) := by exact_mod_cast hth
            have hprod : 0 < conv * px := pos_of_ten_le_pythonRound hthz
            rcases mul_pos_iff.mp hprod with ⟨_, hpx0⟩ | ⟨hc, _⟩
            · exact hpx0
            · exact absurd hconv0 (not_le.mpr hc)
          · exact absurd hrow (by simp)

/-- C3 witness: the amended pipeline invariants at a concrete Binance event
(`q = 2`, `ap = 10`) and a concrete OKX detail (cached ratio 2, `sz = 5`,
`bkPx = 3`). -/
theorem adapter_threshold_price_amended_witness :
    (0 : ℚ) ≤ 2 ∧ (0 : ℚ) ≤ 10 ∧
    handle_event ⟨0, "BTCUSDT", "SELL", 2, 10⟩ =
      some ⟨28800, "BTC", "BA", 10, dirLong, 2 * 10⟩ ∧
    (0 : ℚ) < (⟨28800, "BTC", "BA", 10, dirLong, 2 * 10⟩ : Row).price ∧
    ((handle_detail [("X", 2)] [] "X" ⟨0, "sell", "long", some 3, 5⟩).1.isSome ↔
      threshold ≤ ((pythonRound (((5 : ℚ) * 2) * 3) : ℤ) : ℚ) ∧
      ((("sell" : String) = "sell" ∧ ("long" : String) = "long") ∨
       (("sell" : String) = "buy" ∧ ("long" : String) = "short"))) ∧
    (0 : ℚ) < (⟨28800, "X", "OKX", 3, dirLong, 30⟩ : Row).price := by
  refine ⟨by decide, by decide, by with_unfolding_all rfl, ?_, ?_, ?_⟩
  · exact adapter_threshold_price_amended.2.1 ⟨0, "BTCUSDT", "SELL", 2, 10⟩
      ⟨28800, "BTC", "BA", 10, dirLong, 2 * 10⟩ (by decide) (by decide)
      (by with_unfolding_all rfl)
  · exact adapter_threshold_price_amended.2.2.1 [("X", 2)] [] "X" ⟨0, "sell", "long", some 3, 5⟩
      3 (5 * 2) rfl rfl
  · exact adapter_threshold_price_amended.2.2.2 [("X", 2)] [] "X" ⟨0, "sell", "long", some 3, 5⟩
      ⟨28800, "X", "OKX", 3, dirLong, 30⟩ (by decide) (by decide) (by decide)
      (by with_unfolding_all rfl)

/-- A helper: the SSE frame is the single filter the spec describes:
`iter_since` keeps `ts > last` and the generator then applies the query
filters, preserving store order. -/
theorem sse_tick_frame (st : List Ev) (f : SseFilter) (last : ℤ) :
    (sse_tick st f last).1 = st.filter (fun e => sse_keep f e && decide (last < e.ts)) := by
  show (st.filter (fun e => decide (last < e.ts))).filter (sse_keep f) = _
  rw [List.filter_filter]

/-- A helper: when a frame is delivered, the cursor advances to the last
delivered event's timestamp. -/
theorem sse_tick_cursor_last (st : List Ev) (f : SseFilter) (last : ℤ) (e : Ev)
    (h : (sse_tick st f last).1.getLast? = some e) : (sse_tick st f last).2 = e.ts := by
  show (match (sse_tick st f last).1.getLast? with
        | some e => e.ts
        | none => last) = e.ts
  rw [h]

/-- A helper: an empty tick leaves the cursor unchanged. -/
theorem sse_tick_cursor_keep (st : List Ev) (f : SseFilter) (last : ℤ)
    (h : (sse_tick st f last).1 = []) : (sse_tick st f last).2 = last := by
  show (match (sse_tick st f last).1.getLast? with
        | some e => e.ts
        | none => last) = last
  rw [h]
  rfl

/-- A helper: the SSE cursor never moves backwards. -/
theorem sse_tick_cursor_mono (st : List Ev) (f : SseFilter) (last : ℤ) :
    last ≤ (sse_tick st f last).2 := by
  rcases hl : (sse_tick st f last).1.getLast? with _ | e
  · rw [show (sse_tick st f last).2 = last from by
      show (match (sse_tick st f last).1.getLast? with
            | some e => e.ts
            | none => last) = last
      rw [hl]]
  · have hm : e ∈ (sse_tick st f last).1 := by
      rcases List.getLast?_eq_some_iff.mp hl with ⟨l', hl'⟩
      rw [hl']
      exact List.mem_concat_self l' e
    rw [sse_tick_frame] at hm
    have := (List.mem_filter.mp hm).2
    simp only [Bool.and_eq_true, decide_eq_true_eq] at this
    rw [sse_tick_cursor_last st f last e hl]
    exact le_of_lt this.2

/-- A helper: every event of every later frame of a connection has a
timestamp strictly above the connection's current cursor. -/
theorem sse_run_future (f : SseFilter) : ∀ (sts : List (List Ev)) (last : ℤ),
    ∀ fr ∈ sse_run f last sts, ∀ e ∈ fr, last < e.ts := by
  intro sts
  induction sts with
  | nil => intro last fr hfr; simp [sse_run] at hfr
  | cons st rest ih =>
    intro last fr hfr e he
    rw [sse_run] at hfr
    rcases List.mem_cons.mp hfr with rfl | hfr'
    · rw [sse_tick_frame] at he
      have := (List.mem_filter.mp he).2
      simp only [Bool.and_eq_true, decide_eq_true_eq] at this
      exact this.2
    · exact lt_of_le_of_lt (sse_tick_cursor_mono st f last) (ih _ fr hfr' e he)

/-- C8: SSE tick semantics.  Each tick's frame is exactly the
filter-matching events with `ts > last_ts_sent`, in store order; the cursor
then advances to the last delivered event's timestamp (and stays put on an
empty tick); and on every later tick of the same connection — over any
sequence of store snapshots — every delivered event has `ts` strictly above
the cursor, so nothing at or below an advanced cursor is re-delivered. -/
theorem sse_tick_semantics :
    (∀ (st : List Ev) (f : SseFilter) (last : ℤ),
        (sse_tick st f last).1 =
          st.filter (fun e => sse_keep f e && decide (last < e.ts))) ∧
    (∀ (st : List Ev) (f : SseFilter) (last : ℤ) (e : Ev),
        (sse_tick st f last).1.getLast? = some e → (sse_tick st f last).2 = e.ts) ∧
    (∀ (st : List Ev) (f : SseFilter) (last : ℤ),
        (sse_tick st f last).1 = [] → (sse_tick st f last).2 = last) ∧
    (∀ (f : SseFilter) (sts : List (List Ev)) (last : ℤ),
        ∀ fr ∈ sse_run f last sts, ∀ e ∈ fr, last < e.ts) :=
  ⟨sse_tick_frame, sse_tick_cursor_last, sse_tick_cursor_keep, sse_run_future⟩

/-- C8 witness: one tick delivering a single event at `ts = 5` from cursor
0, after which a tick of the same store delivers nothing. -/
theorem sse_tick_semantics_witness :
    (sse_tick [⟨5, "BTC", "Binance", 1, dirLong, 100⟩] ⟨none, none, none⟩ 0).1 =
      [(⟨5, "BTC", "Binance", 1, dirLong, 100⟩ : Ev)].filter
        (fun e => sse_keep ⟨none, none, none⟩ e && decide ((0 : ℤ) < e.ts)) ∧
    (sse_tick [⟨5, "BTC", "Binance", 1, dirLong, 100⟩] ⟨none, none, none⟩ 0).1.getLast? =
      some ⟨5, "BTC", "Binance", 1, dirLong, 100⟩ ∧
    (sse_tick [⟨5, "BTC", "Binance", 1, dirLong, 100⟩] ⟨none, none, none⟩ 0).2 = 5 ∧
    ([] : List Ev) ∈ sse_run ⟨none, none, none⟩ 5 [[⟨5, "BTC", "Binance", 1, dirLong, 100⟩]] ∧
    (∀ e ∈ ([] : List Ev), (5 : ℤ) < e.ts) :=
  ⟨sse_tick_semantics.1 _ _ _, rfl,
   sse_tick_semantics.2.1 _ _ _ ⟨5, "BTC", "Binance", 1, dirLong, 100⟩ rfl,
   List.mem_singleton.mpr rfl,
   sse_tick_semantics.2.2.2 ⟨none, none, none⟩ [[⟨5, "BTC", "Binance", 1, dirLong, 100⟩]] 5
     [] (List.mem_singleton.mpr rfl)⟩

theorem foldl_add_shift (l : List (String × ℚ)) : ∀ a : ℚ,
    l.foldl (fun acc p => acc + p.2) a = a + l.foldl (fun acc p => acc + p.2) 0 := by
  induction l with
  | nil => intro a; simp
  | cons p t ih =>
    intro a
    simp only [List.foldl_cons]
    rw [ih (a + p.2), ih (0 + p.2)]
    ring

theorem sumRows_cons (p : String × ℚ) (t : List (String × ℚ)) (s : String) :
    sumRows (p :: t) s = (if p.1 = s then p.2 else 0) + sumRows t s := by
  unfold sumRows
  by_cases h : p.1 = s
  · have hf : List.filter (fun p => decide (p.1 = s)) (p :: t) =
        p :: List.filter (fun p => decide (p.1 = s)) t := by simp [h]
    rw [hf, List.foldl_cons, foldl_add_shift]
    simp [h]
  · simp [List.filter_cons, h]

theorem addA_keys (acc : List (String × ℚ)) (s : String) (a : ℚ) :
    (addA acc (s, a)).map Prod.fst =
      if s ∈ acc.map Prod.fst then acc.map Prod.fst else acc.map Prod.fst ++ [s] := by
  induction acc with
  | nil => simp [addA]
  | cons q t ih =>
    by_cases h : q.1 = s
    · simp only [addA]
      rw [if_pos h]
      simp [h]
    · simp only [addA]
      rw [if_neg h]
      simp only [List.map_cons]
      rw [ih]
      by_cases hm : s ∈ t.map Prod.fst
      · rw [if_pos hm, if_pos (List.mem_cons_of_mem _ hm)]
      · rw [if_neg hm, if_neg]
        · simp
        · intro hc
          rcases List.mem_cons.mp hc with hc' | hc'
          · exact h hc'.symm
          · exact hm hc'

theorem addA_lookup_self (acc : List (String × ℚ)) (s : String) (a : ℚ) :
    lookupA (addA acc (s, a)) s = some ((lookupA acc s).getD 0 + a) := by
  induction acc with
  | nil => simp [addA, lookupA]
  | cons q t ih =>
    by_cases h : q.1 = s
    · simp only [addA]
      rw [if_pos h]
      simp only [lookupA]
      rw [if_pos h, if_pos h]
      rfl
    · simp only [addA]
      rw [if_neg h]
      simp only [lookupA]
      rw [if_neg h, if_neg h]
      exact ih

theorem addA_lookup_other (acc : List (String × ℚ)) (s : String) (a : ℚ) (s' : String)
    (h : s ≠ s') : lookupA (addA acc (s, a)) s' = lookupA acc s' := by
  induction acc with
  | nil => simp [addA, lookupA, h]
  | cons q t ih =>
    by_cases hq : q.1 = s
    · simp only [addA]
      rw [if_pos hq]
      simp only [lookupA]
      rw [if_neg (by rw [hq]; exact h), if_neg (by rw [hq]; exact h)]
    · simp only [addA]
      rw [if_neg hq]
      simp only [lookupA]
      by_cases hq' : q.1 = s'
      · rw [if_pos hq', if_pos hq']
      · rw [if_neg hq', if_neg hq']
        exact ih



theorem groupFold_lookup_getD : ∀ (rows : List (String × ℚ)) (acc : List (String × ℚ))
    (s : String),
    (lookupA (rows.foldl addA acc) s).getD 0 = (lookupA acc s).getD 0 + sumRows rows s := by
  intro rows
  induction rows with
  | nil =>
    intro acc s
    simp [sumRows]
  | cons r t ih =>
    intro acc s
    rw [List.foldl_cons, ih (addA acc r) s, sumRows_cons]
    by_cases h : r.1 = s
    · rw [show addA acc r = addA acc (s, r.2) from by rw [← h]]
      rw [addA_lookup_self]
      simp only [Option.getD_some, if_pos h]
      ring
    · rw [show addA acc r = addA acc (r.1, r.2) from by rfl]
      rw [addA_lookup_other acc r.1 r.2 s h]
      rw [if_neg h]
      ring

theorem groupFold_keys : ∀ (rows : List (String × ℚ)) (acc : List (String × ℚ)),
    (rows.foldl addA acc).map Prod.fst = dedupFirstFrom (acc.map Prod.fst) (rows.map Prod.fst) := by
  intro rows
  induction rows with
  | nil => intro acc; rfl
  | cons r t ih =>
    intro acc
    rw [List.foldl_cons, ih (addA acc r)]
    show _ = dedupFirstFrom _ (r.1 :: t.map Prod.fst)
    unfold dedupFirstFrom
    rw [List.foldl_cons]
    have := addA_keys acc r.1 r.2
    rw [show addA acc r = addA acc (r.1, r.2) from by rfl, this]

theorem dedupFirstFrom_nodup : ∀ (l : List String) (a : List String),
    a.Nodup → (dedupFirstFrom a l).Nodup := by
  intro l
  induction l with
  | nil => intro a h; exact h
  | cons s t ih =>
    intro a h
    show (dedupFirstFrom (if s ∈ a then a else a ++ [s]) t).Nodup
    by_cases hm : s ∈ a
    · rw [if_pos hm]; exact ih a h
    · rw [if_neg hm]
      refine ih _ ?_
      rw [List.nodup_append]
      refine ⟨h, List.nodup_singleton s, ?_⟩
      intro x hx hxs
      rw [List.mem_singleton] at hxs
      exact hm (hxs ▸ hx)

theorem lookupA_isSome_of_mem_keys : ∀ (l : List (String × ℚ)) (s : String),
    s ∈ l.map Prod.fst → (lookupA l s).isSome := by
  intro l
  induction l with
  | nil => intro s h; simp at h
  | cons p t ih =>
    intro s h
    simp only [lookupA]
    by_cases hp : p.1 = s
    · rw [if_pos hp]; rfl
    · rw [if_neg hp]
      rcases List.mem_cons.mp h with h' | h'
      · exact absurd h'.symm hp
      · exact ih s h'

theorem lookupA_of_mem_nodup : ∀ (l : List (String × ℚ)),
    (l.map Prod.fst).Nodup → ∀ p ∈ l, lookupA l p.1 = some p.2 := by
  intro l
  induction l with
  | nil => intro _ p hp; simp at hp
  | cons q t ih =>
    intro hnd p hp
    simp only [lookupA]
    rcases List.mem_cons.mp hp with rfl | hp'
    · rw [if_pos rfl]
    · by_cases hq : q.1 = p.1
      · exfalso
        have : p.1 ∈ t.map Prod.fst := List.mem_map_of_mem Prod.fst hp'
        rw [List.map_cons, List.nodup_cons] at hnd
        exact hnd.1 (hq ▸ this)
      · rw [if_neg hq]
        exact ih (by rw [List.map_cons, List.nodup_cons] at hnd; exact hnd.2) p hp'



theorem insert_desc_perm : ∀ (l : List (String × ℚ)) (x : String × ℚ),
    (insert_desc x l).Perm (x :: l) := by
  intro l
  induction l with
  | nil => intro x; exact List.Perm.refl _
  | cons y ys ih =>
    intro x
    rw [insert_desc]
    by_cases h : y.2 < x.2
    · rw [if_pos h]
    · rw [if_neg h]
      exact ((ih x).cons y).trans (List.Perm.swap x y ys)

theorem sort_desc_perm_from : ∀ (l acc : List (String × ℚ)),
    (l.foldl (fun acc x => insert_desc x acc) acc).Perm (acc ++ l) := by
  intro l
  induction l with
  | nil => intro acc; simp
  | cons x t ih =>
    intro acc
    rw [List.foldl_cons]
    refine (ih (insert_desc x acc)).trans ?_
    refine (List.Perm.append_right t (insert_desc_perm acc x)).trans ?_
    show ((x :: acc) ++ t).Perm (acc ++ x :: t)
    exact List.perm_middle.symm

theorem sort_desc_perm (l : List (String × ℚ)) : (sort_desc l).Perm l := by
  have := sort_desc_perm_from l []
  simpa [sort_desc] using this

theorem insert_desc_pairwise (P : (String × ℚ) → (String × ℚ) → Prop)
    (x : String × ℚ) :
    ∀ (l : List (String × ℚ)),
    l.Pairwise (fun a b => b.2 < a.2 ∨ (a.2 = b.2 ∧ P a b)) →
    (∀ a ∈ l, P a x) →
    (insert_desc x l).Pairwise (fun a b => b.2 < a.2 ∨ (a.2 = b.2 ∧ P a b)) := by
  intro l
  induction l with
  | nil => intro _ _; simp [insert_desc]
  | cons y ys ih =>
    intro hl hx
    rw [insert_desc]
    by_cases h : y.2 < x.2
    · rw [if_pos h]
      refine List.Pairwise.cons ?_ hl
      intro z hz
      rcases List.mem_cons.mp hz with rfl | hz'
      · exact Or.inl h
      · rcases List.rel_of_pairwise_cons hl hz' with h1 | ⟨h1, _⟩
        · exact Or.inl (lt_trans h1 h)
        · exact Or.inl (h1 ▸ h)
    · rw [if_neg h]
      refine List.Pairwise.cons ?_ (ih hl.of_cons (fun a ha => hx a (List.mem_cons_of_mem _ ha)))
      intro z hz
      rcases List.mem_cons.mp ((insert_desc_perm ys x).mem_iff.mp hz) with rfl | hz'
      · rcases lt_or_eq_of_le (not_lt.mp h) with hlt | heq
        · exact Or.inl hlt
        · exact Or.inr ⟨heq.symm, hx y (List.mem_cons_self _ _)⟩
      · exact List.rel_of_pairwise_cons hl hz'

theorem sort_desc_pairwise_from (P : (String × ℚ) → (String × ℚ) → Prop) :
    ∀ (l acc : List (String × ℚ)),
    acc.Pairwise (fun a b => b.2 < a.2 ∨ (a.2 = b.2 ∧ P a b)) →
    (∀ a ∈ acc, ∀ b ∈ l, P a b) →
    l.Pairwise P →
    (l.foldl (fun acc x => insert_desc x acc) acc).Pairwise
      (fun a b => b.2 < a.2 ∨ (a.2 = b.2 ∧ P a b)) := by
  intro l
  induction l with
  | nil => intro acc hacc _ _; exact hacc
  | cons x t ih =>
    intro acc hacc hcross hl
    rw [List.foldl_cons]
    refine ih (insert_desc x acc) ?_ ?_ hl.of_cons
    · exact insert_desc_pairwise P x acc hacc (fun a ha => hcross a ha x (List.mem_cons_self _ _))
    · intro a ha b hb
      rcases List.mem_cons.mp ((insert_desc_perm acc x).mem_iff.mp ha) with rfl | ha'
      · exact List.rel_of_pairwise_cons hl hb
      · exact hcross a ha' b (List.mem_cons_of_mem _ hb)

theorem sort_desc_pairwise (P : (String × ℚ) → (String × ℚ) → Prop)
    (l : List (String × ℚ)) (hl : l.Pairwise P) :
    (sort_desc l).Pairwise (fun a b => b.2 < a.2 ∨ (a.2 = b.2 ∧ P a b)) :=
  sort_desc_pairwise_from P l [] (List.Pairwise.nil) (by intro a ha; simp at ha) hl

theorem nodup_pairwise_indexOf : ∀ (ks : List String), ks.Nodup →
    ks.Pairwise (fun x y => ks.indexOf x < ks.indexOf y) := by
  intro ks
  induction ks with
  | nil => intro _; exact List.Pairwise.nil
  | cons k t ih =>
    intro hnd
    rw [List.nodup_cons] at hnd
    refine List.Pairwise.cons ?_ ?_
    · intro y hy
      have hky : k ≠ y := fun hc => hnd.1 (hc ▸ hy)
      rw [List.indexOf_cons_self, List.indexOf_cons_ne _ hky]
      exact Nat.succ_pos _
    · refine List.Pairwise.imp_of_mem ?_ (ih hnd.2)
      intro a b ha hb hab
      have hka : k ≠ a := fun hc => hnd.1 (hc ▸ ha)
      have hkb : k ≠ b := fun hc => hnd.1 (hc ▸ hb)
      rw [List.indexOf_cons_ne _ hka, List.indexOf_cons_ne _ hkb]
      exact Nat.succ_lt_succ hab



theorem foldl_amount_shift (l : List Ev) : ∀ a : ℚ,
    l.foldl (fun acc e => acc + e.amount) a = a + l.foldl (fun acc e => acc + e.amount) 0 := by
  induction l with
  | nil => intro a; simp
  | cons e t ih =>
    intro a
    simp only [List.foldl_cons]
    rw [ih (a + e.amount), ih (0 + e.amount)]
    ring

theorem window_sums_eq_groupFold (events : List Ev) (ws : ℤ) (long : Bool) :
    window_sums events ws long = groupFold (pairRows (window_dir_events events ws long)) := by
  unfold window_sums groupFold
  suffices h : ∀ (evs : List Ev) (acc : List (String × ℚ)),
      evs.foldl (fun acc e =>
        if decide (e.ts < ws) then acc
        else if decide (e.direction = dirLong) = long then addA acc (e.symbol, e.amount)
        else acc) acc =
      (pairRows (window_dir_events evs ws long)).foldl addA acc from h events []
  intro evs
  induction evs with
  | nil => intro acc; rfl
  | cons e t ih =>
    intro acc
    rw [List.foldl_cons]
    by_cases h1 : e.ts < ws
    · rw [if_pos (by simpa using h1)]
      rw [ih acc]
      have : window_dir_events (e :: t) ws long = window_dir_events t ws long := by
        unfold window_dir_events
        rw [List.filter_cons, if_neg (by simp [h1])]
      rw [this]
    · by_cases h2 : decide (e.direction = dirLong) = long
      · rw [if_neg (by simpa using h1), if_pos h2]
        rw [ih (addA acc (e.symbol, e.amount))]
        have : window_dir_events (e :: t) ws long = e :: window_dir_events t ws long := by
          unfold window_dir_events
          rw [List.filter_cons, if_pos (by simp [h1, h2])]
        rw [this]
        rfl
      · rw [if_neg (by simpa using h1), if_neg h2]
        rw [ih acc]
        have : window_dir_events (e :: t) ws long = window_dir_events t ws long := by
          unfold window_dir_events
          rw [List.filter_cons, if_neg (by simp [h1, h2])]
        rw [this]

theorem sumRows_pairRows (evs : List Ev) (s : String) :
    sumRows (pairRows evs) s =
      (evs.filter (fun e => decide (e.symbol = s))).foldl (fun a e => a + e.amount) 0 := by
  induction evs with
  | nil => rfl
  | cons e t ih =>
    have hp : pairRows (e :: t) = (e.symbol, e.amount) :: pairRows t := rfl
    rw [hp, sumRows_cons]
    by_cases h : e.symbol = s
    · have hf : (e :: t).filter (fun e => decide (e.symbol = s)) =
          e :: t.filter (fun e => decide (e.symbol = s)) := by
        rw [List.filter_cons, if_pos (by simp [h])]
      rw [hf, List.foldl_cons, foldl_amount_shift, ih]
      simp [h]
    · have hf : (e :: t).filter (fun e => decide (e.symbol = s)) =
          t.filter (fun e => decide (e.symbol = s)) := by
        rw [List.filter_cons, if_neg (by simp [h])]
      rw [hf, ih]
      simp [h]

theorem pairRows_keys (evs : List Ev) :
    (pairRows evs).map Prod.fst = evs.map (fun e => e.symbol) := by
  unfold pairRows
  rw [List.map_map]
  rfl



theorem top_take_spec (events : List Ev) (ws : ℤ) (long : Bool) :
    (∀ p ∈ (sort_desc (window_sums events ws long)).take 10,
        p.2 = dir_sum events ws long p.1) ∧
    ((sort_desc (window_sums events ws long)).take 10).Pairwise
      (fun a b => b.2 < a.2 ∨ (a.2 = b.2 ∧
        (dedupFirst (dir_symbols events ws long)).indexOf a.1 <
        (dedupFirst (dir_symbols events ws long)).indexOf b.1)) ∧
    ((sort_desc (window_sums events ws long)).take 10).length =
      min 10 (dedupFirst (dir_symbols events ws long)).length ∧
    (∀ p ∈ (sort_desc (window_sums events ws long)).take 10,
        p.1 ∈ dedupFirst (dir_symbols events ws long)) ∧
    (∀ s ∈ dedupFirst (dir_symbols events ws long),
        s ∉ ((sort_desc (window_sums events ws long)).take 10).map Prod.fst →
        ∀ p ∈ (sort_desc (window_sums events ws long)).take 10,
          dir_sum events ws long s ≤ p.2) := by
  rw [window_sums_eq_groupFold]
  have hkeys : (groupFold (pairRows (window_dir_events events ws long))).map Prod.fst =
      dedupFirst (dir_symbols events ws long) := by
    unfold groupFold
    rw [groupFold_keys]
    show dedupFirstFrom [] _ = _
    rw [pairRows_keys]
    rfl
  have hnd : (dedupFirst (dir_symbols events ws long)).Nodup :=
    dedupFirstFrom_nodup _ [] List.nodup_nil
  have hndk : ((groupFold (pairRows (window_dir_events events ws long))).map Prod.fst).Nodup := by
    rw [hkeys]; exact hnd
  have hval : ∀ s, (lookupA (groupFold (pairRows (window_dir_events events ws long))) s).getD 0 =
      dir_sum events ws long s := by
    intro s
    unfold groupFold
    rw [groupFold_lookup_getD]
    show (lookupA [] s).getD 0 + _ = _
    rw [sumRows_pairRows]
    show 0 + _ = _
    rw [zero_add]
    rfl
  have hpw : (groupFold (pairRows (window_dir_events events ws long))).Pairwise (fun a b =>
      (dedupFirst (dir_symbols events ws long)).indexOf a.1 <
      (dedupFirst (dir_symbols events ws long)).indexOf b.1) := by
    have h1 : ((groupFold (pairRows (window_dir_events events ws long))).map Prod.fst).Pairwise
        (fun x y => (dedupFirst (dir_symbols events ws long)).indexOf x <
          (dedupFirst (dir_symbols events ws long)).indexOf y) := by
      rw [hkeys]
      exact nodup_pairwise_indexOf _ hnd
    exact List.Pairwise.of_map Prod.fst (fun a b h => h) h1
  have hsorted := sort_desc_pairwise _ _ hpw
  have hperm := sort_desc_perm (groupFold (pairRows (window_dir_events events ws long)))
  have hmem_tl : ∀ p ∈ (sort_desc (groupFold (pairRows (window_dir_events events ws long)))).take 10,
      p ∈ groupFold (pairRows (window_dir_events events ws long)) := by
    intro p hp
    exact hperm.mem_iff.mp ((List.take_sublist _ _).subset hp)
  have hvalue : ∀ p ∈ (sort_desc (groupFold (pairRows (window_dir_events events ws long)))).take 10,
      p.2 = dir_sum events ws long p.1 := by
    intro p hp
    have hl := lookupA_of_mem_nodup _ hndk p (hmem_tl p hp)
    have := hval p.1
    rw [hl] at this
    simpa using this
  refine ⟨hvalue, ?_, ?_, ?_, ?_⟩
  · exact hsorted.sublist (List.take_sublist _ _)
  · rw [List.length_take, hperm.length_eq, ← hkeys, List.length_map]
  · intro p hp
    rw [← hkeys]
    exact List.mem_map_of_mem _ (hmem_tl p hp)
  · intro s hs hnotin p hp
    have hsome := lookupA_isSome_of_mem_keys _ s (by rw [hkeys]; exact hs)
    obtain ⟨v, hv⟩ := Option.isSome_iff_exists.mp hsome
    have hvval : v = dir_sum events ws long s := by
      have := hval s
      rw [hv] at this
      simpa using this
    have hmem : (s, v) ∈ groupFold (pairRows (window_dir_events events ws long)) :=
      lookupA_mem hv
    have hmem' : (s, v) ∈ sort_desc (groupFold (pairRows (window_dir_events events ws long))) :=
      hperm.mem_iff.mpr hmem
    rw [← List.take_append_drop 10
      (sort_desc (groupFold (pairRows (window_dir_events events ws long))))] at hmem'
    rcases List.mem_append.mp hmem' with hin | hdrop
    · exact absurd (List.mem_map_of_mem Prod.fst hin) hnotin
    · have hsorted' := hsorted
      rw [← List.take_append_drop 10
        (sort_desc (groupFold (pairRows (window_dir_events events ws long))))] at hsorted'
      have hrel := (List.pairwise_append.mp hsorted').2.2 p hp (s, v) hdrop
      rw [← hvval]
      rcases hrel with h1 | ⟨h1, _⟩
      · exact le_of_lt h1
      · exact le_of_eq h1.symm



/-- C4: the tie-break of the claimed top-10 ordering is wrong.  With two
symbols tied at total 100 and `ZZZ` seen first, the code's stable
descending sort returns `ZZZ` before `AAA`, although `AAA < ZZZ`
lexicographically — ties keep first-appearance order, not lexicographic
ascending order. -/
theorem aggregates_tie_break_cex :
    List.lookup (3 : ℤ) (aggregates
        [⟨0, "ZZZ", "Binance", 1, dirLong, 100⟩, ⟨0, "AAA", "Binance", 1, dirLong, 100⟩] 0) =
      some (window_agg [⟨0, "ZZZ", "Binance", 1, dirLong, 100⟩,
        ⟨0, "AAA", "Binance", 1, dirLong, 100⟩] 0 3) ∧
    (window_agg [⟨0, "ZZZ", "Binance", 1, dirLong, 100⟩,
        ⟨0, "AAA", "Binance", 1, dirLong, 100⟩] 0 3).top_long =
      [("ZZZ", (100 : ℚ)), ("AAA", 100)] ∧
    strLt "AAA" "ZZZ" = true ∧
    ([("ZZZ", (100 : ℚ)), ("AAA", 100)] : List (String × ℚ)) ≠ [("AAA", 100), ("ZZZ", 100)] :=
  ⟨rfl, rfl, rfl, by decide⟩

/-- C4 amended: for every window `w` of `aggregates()` and each side
(`long = true` for `top_long`, `false` for `top_short`), the returned list
is the at-most-10 pairs `(symbol, total)` such that: every listed total is
the summed amount of that symbol's matching events with
`ts ≥ now − w·60s`; the list is descending by total with ties in
first-appearance order of the symbol (Python's insertion-ordered dict plus
a stable sort) — not lexicographic order; its length is `min 10 (number of
distinct matching symbols)`; every listed symbol occurs in the window; and
every unlisted window symbol's total is ≤ every listed total. -/
theorem aggregates_top10_amended (events : List Ev) (now m : ℤ)
    (hm : m ∈ AGG_WINDOWS_MINUTES) (long : Bool) :
    List.lookup m (aggregates events now) = some (window_agg events now m) ∧
    cond long (window_agg events now m).top_long (window_agg events now m).top_short =
      (sort_desc (window_sums events (now - m * 60) long)).take 10 ∧
    (∀ p ∈ (sort_desc (window_sums events (now - m * 60) long)).take 10,
        p.2 = dir_sum events (now - m * 60) long p.1) ∧
    ((sort_desc (window_sums events (now - m * 60) long)).take 10).Pairwise
      (fun a b => b.2 < a.2 ∨ (a.2 = b.2 ∧
        (dedupFirst (dir_symbols events (now - m * 60) long)).indexOf a.1 <
        (dedupFirst (dir_symbols events (now - m * 60) long)).indexOf b.1)) ∧
    ((sort_desc (window_sums events (now - m * 60) long)).take 10).length =
      min 10 (dedupFirst (dir_symbols events (now - m * 60) long)).length ∧
    (∀ p ∈ (sort_desc (window_sums events (now - m * 60) long)).take 10,
        p.1 ∈ dedupFirst (dir_symbols events (now - m * 60) long)) ∧
    (∀ s ∈ dedupFirst (dir_symbols events (now - m * 60) long),
        s ∉ ((sort_desc (window_sums events (now - m * 60) long)).take 10).map Prod.fst →
        ∀ p ∈ (sort_desc (window_sums events (now - m * 60) long)).take 10,
          dir_sum events (now - m * 60) long s ≤ p.2) := by
  obtain ⟨h1, h2, h3, h4, h5⟩ := top_take_spec events (now - m * 60) long
  refine ⟨?_, ?_, h1, h2, h3, h4, h5⟩
  · fin_cases hm <;> rfl
  · cases long <;> rfl



/-- C4 witness: the amended characterization at a one-event store in the
3-minute window. -/
theorem aggregates_top10_amended_witness :
    (3 : ℤ) ∈ AGG_WINDOWS_MINUTES ∧
    (List.lookup (3 : ℤ) (aggregates [⟨0, "BTC", "Binance", 1, dirLong, 100⟩] 0) =
      some (window_agg [⟨0, "BTC", "Binance", 1, dirLong, 100⟩] 0 3) ∧
    cond true (window_agg [⟨0, "BTC", "Binance", 1, dirLong, 100⟩] 0 3).top_long
        (window_agg [⟨0, "BTC", "Binance", 1, dirLong, 100⟩] 0 3).top_short =
      (sort_desc (window_sums [⟨0, "BTC", "Binance", 1, dirLong, 100⟩] (0 - 3 * 60) true)).take 10 ∧
    (∀ p ∈ (sort_desc (window_sums [⟨0, "BTC", "Binance", 1, dirLong, 100⟩] (0 - 3 * 60) true)).take 10,
        p.2 = dir_sum [⟨0, "BTC", "Binance", 1, dirLong, 100⟩] (0 - 3 * 60) true p.1) ∧
    ((sort_desc (window_sums [⟨0, "BTC", "Binance", 1, dirLong, 100⟩] (0 - 3 * 60) true)).take 10).Pairwise
      (fun a b => b.2 < a.2 ∨ (a.2 = b.2 ∧
        (dedupFirst (dir_symbols [⟨0, "BTC", "Binance", 1, dirLong, 100⟩] (0 - 3 * 60) true)).indexOf a.1 <
        (dedupFirst (dir_symbols [⟨0, "BTC", "Binance", 1, dirLong, 100⟩] (0 - 3 * 60) true)).indexOf b.1)) ∧
    ((sort_desc (window_sums [⟨0, "BTC", "Binance", 1, dirLong, 100⟩] (0 - 3 * 60) true)).take 10).length =
      min 10 (dedupFirst (dir_symbols [⟨0, "BTC", "Binance", 1, dirLong, 100⟩] (0 - 3 * 60) true)).length ∧
    (∀ p ∈ (sort_desc (window_sums [⟨0, "BTC", "Binance", 1, dirLong, 100⟩] (0 - 3 * 60) true)).take 10,
        p.1 ∈ dedupFirst (dir_symbols [⟨0, "BTC", "Binance", 1, dirLong, 100⟩] (0 - 3 * 60) true)) ∧
    (∀ s ∈ dedupFirst (dir_symbols [⟨0, "BTC", "Binance", 1, dirLong, 100⟩] (0 - 3 * 60) true),
        s ∉ ((sort_desc (window_sums [⟨0, "BTC", "Binance", 1, dirLong, 100⟩] (0 - 3 * 60) true)).take 10).map Prod.fst →
        ∀ p ∈ (sort_desc (window_sums [⟨0, "BTC", "Binance", 1, dirLong, 100⟩] (0 - 3 * 60) true)).take 10,
          dir_sum [⟨0, "BTC", "Binance", 1, dirLong, 100⟩] (0 - 3 * 60) true s ≤ p.2)) :=
  ⟨by decide,
   aggregates_top10_amended [⟨0, "BTC", "Binance", 1, dirLong, 100⟩] 0 3 (by decide) true⟩

end LiqMon
